import Mathlib

/-!
# Verification of the Nexora001 RAG core against its specification

Shallow embedding of the tenant-isolated ingestion / retrieval / generation
pipeline of the Nexora001 repository:

* `TextChunker` (src/nexora001/processors/chunker.py),
* `EmbeddingGenerator` (src/nexora001/processors/embeddings.py),
* `MongoDBStorage` (src/nexora001/storage/mongodb.py),
* `QdrantStorage` (src/nexora001/storage/qdrant_storage.py),
* `DocumentRetriever` (src/nexora001/rag/retriever.py),
* `AnswerGenerator` (src/nexora001/rag/generator.py),
* `Nexora001Spider.parse` (src/nexora001/crawler/spider.py).

Modelling conventions:
* Python strings are `List Char`; Python floats are exact rationals `ℚ`
  (and `ℝ` where a square root is needed, in `_cosine_similarity`);
* external I/O events (an Atlas aggregation error, a Qdrant transport
  error, the LLM transport outcome) are explicit parameters;
* the embedding model itself is an arbitrary function parameter, since
  the repository treats it as an opaque deterministic black box.
-/

/-- Python whitespace (`\s` of the `re` module and `str.strip`/`str.split`,
restricted to the ASCII whitespace characters). -/
def isSpaceChar (c : Char) : Bool :=
  c == ' ' || c == '\t' || c == '\n' || c == '\r' || c == '\x0b' || c == '\x0c'

/-- Python `text.lstrip()`. -/
def lstripC (l : List Char) : List Char := l.dropWhile isSpaceChar

/-- Python `text.rstrip()`. -/
def rstripC (l : List Char) : List Char := (l.reverse.dropWhile isSpaceChar).reverse

/-- Python `text.strip()`. -/
def pyStrip (l : List Char) : List Char := lstripC (rstripC l)

/-- Python `text[-k:]`: the last `k` characters, except that `k = 0`
(`text[-0:]`, i.e. `text[0:]`) yields the whole string. -/
def pySliceLast (k : ℕ) (l : List α) : List α :=
  if k = 0 then l else l.drop (l.length - k)

/-- `re.sub(r'\s+', ' ', text)`: every maximal run of whitespace becomes a
single space.  The `inRun` flag records whether the previous character was
part of a whitespace run already replaced. -/
def collapseWsAux : Bool → List Char → List Char
  | _, [] => []
  | inRun, c :: cs =>
    if isSpaceChar c then
      if inRun then collapseWsAux true cs else ' ' :: collapseWsAux true cs
    else c :: collapseWsAux false cs

/-- `re.sub(r'\s+', ' ', text)`. -/
def collapseWs (l : List Char) : List Char := collapseWsAux false l

/-- Python `text.split("\n\n")` (plain, non-regex split on the chunker's
default paragraph separator). -/
def pySplitParAux : List Char → List Char → List (List Char)
  | acc, '\n' :: '\n' :: rest => acc.reverse :: pySplitParAux [] rest
  | acc, c :: rest => pySplitParAux (c :: acc) rest
  | acc, [] => [acc.reverse]

/-- Python `text.split("\n\n")`. -/
def pySplitPar (l : List Char) : List (List Char) := pySplitParAux [] l

/-- A sentence terminator of the chunker's regexes: `.`, `!` or `?`. -/
def isSentTerm (c : Char) : Bool := c == '.' || c == '!' || c == '?'

/-- Head of a list is whitespace. -/
def headIsSpace : List Char → Bool
  | [] => false
  | c :: _ => isSpaceChar c

/-- `re.split(r'(?<=[.!?])\s+', text)`: split after a sentence terminator
followed by whitespace, consuming the whole whitespace run.  The `Bool`
argument is true while the whitespace run after a split point is being
consumed. -/
def splitSentGo : Bool → List Char → List Char → List (List Char)
  | _, acc, [] => [acc.reverse]
  | skip, acc, c :: cs =>
    if skip && isSpaceChar c then splitSentGo true acc cs
    else if isSentTerm c && headIsSpace cs then
      (c :: acc).reverse :: splitSentGo true [] cs
    else splitSentGo false (c :: acc) cs

/-- `re.split(r'(?<=[.!?])\s+', text)`. -/
def splitSentences (l : List Char) : List (List Char) := splitSentGo false [] l

/-- Python `text.split()`: split on whitespace runs, dropping empty pieces. -/
def pyWordsAux : List Char → List Char → List (List Char)
  | acc, [] => if acc.isEmpty then [] else [acc.reverse]
  | acc, c :: cs =>
    if isSpaceChar c then
      if acc.isEmpty then pyWordsAux [] cs else acc.reverse :: pyWordsAux [] cs
    else pyWordsAux (c :: acc) cs

/-- Python `text.split()`. -/
def pyWords (l : List Char) : List (List Char) := pyWordsAux [] l

/-- Python `" ".join(words)`. -/
def joinSpace (ws : List (List Char)) : List Char := List.intercalate [' '] ws

/-- Index of the first occurrence of `pat` in the text, or `none`. -/
def findSubAux (pat : List Char) : List Char → ℕ → Option ℕ
  | [], i => if pat.isPrefixOf ([] : List Char) then some i else none
  | c :: cs, i =>
    if pat.isPrefixOf (c :: cs) then some i else findSubAux pat cs (i + 1)

/-- Python `text.find(pat)`: index of the first occurrence, `-1` if absent. -/
def pyFind (pat l : List Char) : Int :=
  match findSubAux pat l 0 with
  | some n => (n : Int)
  | none => -1

/-- `TextChunker.__init__` state: `chunk_size` and `chunk_overlap`
(the `separator` field always keeps its default value `"\n\n"` in the
repository, so it is fixed in the model). -/
structure TextChunker where
  chunk_size : ℕ
  chunk_overlap : ℕ
deriving DecidableEq

/-- `TextChunker._clean_text`.  The source applies
`re.sub(r'\s+', ' ', text)`, then `re.sub(r'\n\s*\n\s*\n+', '\n\n', text)`,
then `strip()`.  The second substitution requires a literal newline in its
input, and the first substitution has already replaced every newline by a
space (theorem `collapseWsAux_no_newline`), so the second substitution
never matches and is the identity here. -/
def TextChunker._clean_text (_ck : TextChunker) (t : List Char) : List Char :=
  pyStrip (collapseWs t)

/-- `TextChunker._get_overlap`: the overlap tail taken from the end of a
just-emitted chunk.  Mirrors the source literally, including the `-0`
slicing quirk of `text[-self.chunk_overlap:]` (see `pySliceLast`) and the
searched patterns `'.  '` (dot, two spaces), `'! '` and `'? '`. -/
def TextChunker._get_overlap (ck : TextChunker) (text : List Char) : List Char :=
  if text.length ≤ ck.chunk_overlap then text ++ [' ']
  else
    let ov := pySliceLast ck.chunk_overlap text
    let s := max (max (pyFind ['.', ' ', ' '] ov) (pyFind ['!', ' '] ov))
      (pyFind ['?', ' '] ov)
    let ov2 := if 0 < s then ov.drop (s.toNat + 2) else ov
    if pyStrip ov2 ≠ [] then pyStrip ov2 ++ [' '] else []

/-- One `for word in words` iteration of `TextChunker._split_by_words`,
acting on the pair (chunks so far, current chunk). -/
def TextChunker.wordStep (ck : TextChunker) (st : List (List Char) × List Char)
    (w : List Char) : List (List Char) × List Char :=
  let chunks := st.1
  let current := st.2
  if ck.chunk_size < current.length + w.length + 1 then
    if current ≠ [] then
      (chunks ++ [pyStrip current],
        joinSpace (pySliceLast ((ck.chunk_overlap + 9) / 10) (pyWords current))
          ++ [' '] ++ w)
    else (chunks ++ [w], [])
  else if current ≠ [] then (chunks, current ++ [' '] ++ w)
  else (chunks, w)

/-- `TextChunker._split_by_words`.  The slice
`current_chunk.split()[-self.chunk_overlap // 10:]` computes the Python floor
division `-chunk_overlap // 10 = -ceil(chunk_overlap / 10)`, so the kept
word count is `(chunk_overlap + 9) / 10` (and the `-0` quirk applies when
`chunk_overlap = 0`). -/
def TextChunker._split_by_words (ck : TextChunker) (text : List Char) :
    List (List Char) :=
  let st := (pyWords text).foldl (TextChunker.wordStep ck) ([], [])
  if st.2 ≠ [] then st.1 ++ [pyStrip st.2] else st.1

/-- One `for sentence in sentences` iteration of
`TextChunker._split_by_sentences`. -/
def TextChunker.sentenceStep (ck : TextChunker)
    (st : List (List Char) × List Char) (s : List Char) :
    List (List Char) × List Char :=
  let chunks := st.1
  let current := st.2
  if ck.chunk_size < current.length + s.length + 1 then
    if current ≠ [] then
      (chunks ++ [pyStrip current], ck._get_overlap current ++ s)
    else if ck.chunk_size < s.length then
      let wc := ck._split_by_words s
      (chunks ++ wc.dropLast, wc.getLastD [])
    else (chunks, s)
  else if current ≠ [] then (chunks, current ++ [' '] ++ s)
  else (chunks, s)

/-- `TextChunker._split_by_sentences`. -/
def TextChunker._split_by_sentences (ck : TextChunker) (text : List Char) :
    List (List Char) :=
  let st := (splitSentences text).foldl (TextChunker.sentenceStep ck) ([], [])
  if st.2 ≠ [] then st.1 ++ [pyStrip st.2] else st.1

/-- One `for para in paragraphs` iteration of `TextChunker._split_text`;
`2` is the length of the separator `"\n\n"`. -/
def TextChunker.paraStep (ck : TextChunker)
    (st : List (List Char) × List Char) (para0 : List Char) :
    List (List Char) × List Char :=
  let para := pyStrip para0
  if para = [] then st
  else
    let chunks := st.1
    let current := st.2
    if ck.chunk_size < current.length + para.length + 2 then
      if current ≠ [] then
        (chunks ++ [pyStrip current], ck._get_overlap current ++ para)
      else if ck.chunk_size < para.length then
        let sc := ck._split_by_sentences para
        (chunks ++ sc.dropLast, sc.getLastD [])
      else (chunks, para)
    else if current ≠ [] then (chunks, current ++ '\n' :: '\n' :: para)
    else (chunks, para)

/-- `TextChunker._split_text`. -/
def TextChunker._split_text (ck : TextChunker) (text : List Char) :
    List (List Char) :=
  if text.length ≤ ck.chunk_size then [text]
  else
    let st := (pySplitPar text).foldl (TextChunker.paraStep ck) ([], [])
    if st.2 ≠ [] then st.1 ++ [pyStrip st.2] else st.1

/-- One chunk dictionary produced by `TextChunker.chunk_text` (the free-form
`metadata` payload is not modelled; no claim concerns it). -/
structure Chunk where
  text : List Char
  chunk_index : ℕ
  total_chunks : ℕ
  char_count : ℕ
deriving DecidableEq

/-- `TextChunker.chunk_text`. -/
def TextChunker.chunk_text (ck : TextChunker) (t : List Char) : List Chunk :=
  if pyStrip t = [] then []
  else
    let bodies := ck._split_text (ck._clean_text t)
    bodies.enum.map fun p => ⟨p.2, p.1, bodies.length, p.2.length⟩

/-- One stored document chunk of the `documents` collection
(src/nexora001/storage/mongodb.py, `store_document` /
`store_document_with_embedding`): tenant key `client_id`, chunk body
`content`, optional inline `embedding`, and the metadata fields the claims
use (`source_url`, `title`).  The Mongo `ObjectId` is an opaque
identifier, modelled as a natural number. -/
structure StoredDoc where
  docId : ℕ
  client_id : String
  content : List Char
  embedding : Option (List ℚ)
  source_url : String
  title : String
deriving DecidableEq

/-- One hit returned by `MongoDBStorage.vector_search`: the projected
document together with its `similarity_score`.  Scores live in an arbitrary
linearly ordered type `α` (the code computes them as floats; the structural
search theorems hold for every scorer). -/
structure Hit (α : Type) where
  doc : StoredDoc
  similarity_score : α
deriving DecidableEq

/-- `results.sort(key=lambda x: x['similarity_score'], reverse=True)`:
stable sort by non-increasing key (Python's sort is stable and
`reverse=True` keeps equal keys in encounter order, as `mergeSort` does). -/
def sortByKeyDesc [LinearOrder α] (key : β → α) (l : List β) : List β :=
  l.mergeSort fun a b => decide (key b ≤ key a)

/-- `MongoDBStorage.url_exists`:
`count_documents({"client_id": client_id, "metadata.source_url": source_url}) > 0`. -/
def MongoDBStorage.url_exists (docs : List StoredDoc)
    (client_id source_url : String) : Bool :=
  decide (0 < docs.countP fun d =>
    d.client_id == client_id && d.source_url == source_url)

/-- The `$vectorSearch` / `$match` / `$project` aggregation attempted first
by `MongoDBStorage.vector_search`, modelled from the documented semantics of
Atlas vector search: among the indexed documents (those carrying an
`embedding`) that satisfy the filter `{"client_id": client_id}`, the
`limit` nearest to `queryVector` are returned in order of decreasing score,
and the `$match` stage then keeps scores `≥ min_score`.  `sim` stands for
the backend's similarity scorer; `numCandidates = min(limit*20, 200)` only
tunes recall and has no observable effect in the exact model. -/
def MongoDBStorage.atlas_vector_search [LinearOrder α]
    (sim : List ℚ → List ℚ → α) (docs : List StoredDoc)
    (client_id : String) (query_embedding : List ℚ)
    (limit : ℕ) (min_score : α) : List (Hit α) :=
  let cands := docs.filterMap fun d =>
    if d.client_id == client_id then
      d.embedding.map fun e => Hit.mk d (sim query_embedding e)
    else none
  let top := (sortByKeyDesc Hit.similarity_score cands).take limit
  top.filter fun h => decide (min_score ≤ h.similarity_score)

/-- The `except` branch of `MongoDBStorage.vector_search`: load every
document of the tenant that has an embedding, score it with
`_cosine_similarity` (the parameter `sim`), keep scores `≥ min_score`,
sort by decreasing score, truncate to `limit`. -/
def MongoDBStorage.python_fallback_search [LinearOrder α]
    (sim : List ℚ → List ℚ → α) (docs : List StoredDoc)
    (client_id : String) (query_embedding : List ℚ)
    (limit : ℕ) (min_score : α) : List (Hit α) :=
  let candidates := docs.filter fun d =>
    d.client_id == client_id && d.embedding.isSome
  let results := candidates.filterMap fun d =>
    match d.embedding with
    | none => none
    | some e =>
      let score := sim query_embedding e
      if decide (min_score ≤ score) then some (Hit.mk d score) else none
  (sortByKeyDesc Hit.similarity_score results).take limit

/-- `MongoDBStorage.vector_search`: try the Atlas aggregation; on any
raised exception (`atlasError = some e`) fall back to the in-process linear
scan.  The logging `print` calls have no observable effect on the result. -/
def MongoDBStorage.vector_search [LinearOrder α]
    (sim : List ℚ → List ℚ → α) (docs : List StoredDoc)
    (client_id : String) (query_embedding : List ℚ)
    (limit : ℕ) (min_score : α) (atlasError : Option String) : List (Hit α) :=
  match atlasError with
  | none =>
    MongoDBStorage.atlas_vector_search sim docs client_id query_embedding
      limit min_score
  | some _ =>
    MongoDBStorage.python_fallback_search sim docs client_id query_embedding
      limit min_score

/-- One point of the Qdrant `nexora_embeddings` collection
(src/nexora001/storage/qdrant_storage.py, `store_embedding`): id, vector,
and payload `{client_id, content, metadata}`. -/
structure QdrantPoint where
  pointId : ℕ
  vector : List ℚ
  client_id : String
  content : List Char
deriving DecidableEq

/-- One formatted hit of `QdrantStorage.vector_search`. -/
structure QdrantHit (α : Type) where
  point : QdrantPoint
  similarity_score : α
deriving DecidableEq

/-- `QdrantStorage.vector_search`: `client.search` with a `must`
`client_id` filter, `score_threshold = min_score` and `limit`, modelled
from Qdrant's documented semantics (top-`limit` matching points by
decreasing score, scores below the threshold excluded); on any raised
exception the method returns `[]`. -/
def QdrantStorage.vector_search [LinearOrder α]
    (sim : List ℚ → List ℚ → α) (points : List QdrantPoint)
    (client_id : String) (query_embedding : List ℚ)
    (limit : ℕ) (min_score : α) (searchError : Option String) :
    List (QdrantHit α) :=
  match searchError with
  | some _ => []
  | none =>
    let matching := points.filter fun p => p.client_id == client_id
    let scored := matching.map fun p =>
      QdrantHit.mk p (sim query_embedding p.vector)
    let kept := scored.filter fun h => decide (min_score ≤ h.similarity_score)
    (sortByKeyDesc QdrantHit.similarity_score kept).take limit

/-- One formatted result of `DocumentRetriever.retrieve`. -/
structure FormattedResult (α : Type) where
  content : List Char
  score : α
  id : ℕ
deriving DecidableEq

/-- `DocumentRetriever.retrieve`: embed the query (the caller passes the
resulting `query_embedding`; `generate_embedding` is modelled separately),
call `MongoDBStorage.vector_search` with `top_k` and `min_similarity`, and
format each hit, preserving order. -/
def DocumentRetriever.retrieve [LinearOrder α]
    (sim : List ℚ → List ℚ → α) (docs : List StoredDoc)
    (client_id : String) (query_embedding : List ℚ)
    (top_k : ℕ) (min_similarity : α) (atlasError : Option String) :
    List (FormattedResult α) :=
  (MongoDBStorage.vector_search sim docs client_id query_embedding
    top_k min_similarity atlasError).map fun h =>
      ⟨h.doc.content, h.similarity_score, h.doc.docId⟩

/-- The storing part of `Nexora001Spider.parse` for one fetched page:
skip when `url_exists(client_id, response.url)`, skip when the stripped
content is shorter than 100 characters, otherwise chunk the content and
store every chunk with this tenant's `client_id` and the page's URL
(`store_document_with_embedding` when an embedding was produced,
`store_document` otherwise — both record the same `client_id` /
`source_url`).  Returns the list of newly stored documents; `embedFn`
models the (possibly failing) embedding call for each chunk. -/
def Nexora001Spider.parse (ck : TextChunker) (store : List StoredDoc)
    (client_id url title : String) (content : List Char)
    (embedFn : List Char → Option (List ℚ)) : List StoredDoc :=
  if MongoDBStorage.url_exists store client_id url then []
  else if (pyStrip content).length < 100 then []
  else
    (ck.chunk_text content).map fun c =>
      { docId := 0, client_id := client_id, content := c.text,
        embedding := embedFn c.text, source_url := url, title := title }

/-- `EmbeddingGenerator` state: the in-memory cache (an insertion-ordered
mapping; the Python key is `hashlib.md5(text).hexdigest()`, modelled by
keying on the text itself, i.e. assuming no MD5 collisions) and the two
observability counters. -/
structure EmbeddingGenerator where
  cache : List (String × List ℚ)
  cache_hits : ℕ
  cache_misses : ℕ
deriving DecidableEq

/-- `EmbeddingGenerator.generate_embedding`: on a cache hit return the
cached vector and bump `cache_hits`; on a miss call the provider
(`embedFn`), bump `cache_misses`, and store the vector only when the cache
currently holds fewer than 1000 entries (`if len(self.cache) < 1000`) —
there is no eviction. -/
def EmbeddingGenerator.generate_embedding (embedFn : String → List ℚ)
    (g : EmbeddingGenerator) (text : String) :
    List ℚ × EmbeddingGenerator :=
  match g.cache.lookup text with
  | some v => (v, { g with cache_hits := g.cache_hits + 1 })
  | none =>
    let v := embedFn text
    let cache2 :=
      if g.cache.length < 1000 then g.cache ++ [(text, v)] else g.cache
    (v, { g with cache_misses := g.cache_misses + 1, cache := cache2 })

/-- Repeated `generate_embedding` calls from an initial state, used to
exhibit reachable cache states. -/
def EmbeddingGenerator.runMany (embedFn : String → List ℚ)
    (g : EmbeddingGenerator) (texts : List String) : EmbeddingGenerator :=
  texts.foldl (fun g t => (EmbeddingGenerator.generate_embedding embedFn g t).2) g

/-- The shapes `model.generate_content` can return, as distinguished by
`AnswerGenerator.generate_answer`: a response whose `.text` accessor works;
one where `.text` raises but a `parts` list exists (each part optionally
carrying a `.text` attribute); one with neither but with a non-empty
`candidates` list; or none of these. -/
inductive GeminiResponse where
  | simpleText (text : List Char)
  | withParts (parts : List (Option (List Char)))
  | withCandidates (parts : List (Option (List Char)))
  | bare
deriving DecidableEq

/-- The response-extraction block of `AnswerGenerator.generate_answer`:
`response.text.strip()` when available, otherwise the concatenation of the
`text` fragments of `response.parts` (or of
`response.candidates[0].content.parts`), stripped; `""` when no shape
matches. -/
def AnswerGenerator.extract_answer : GeminiResponse → List Char
  | .simpleText t => pyStrip t
  | .withParts ps => pyStrip (ps.foldl (fun acc p => acc ++ p.getD []) [])
  | .withCandidates ps => pyStrip (ps.foldl (fun acc p => acc ++ p.getD []) [])
  | .bare => []

/-- The canonical no-information fallback answer. -/
def noInfoFallback : List Char :=
  "I don't have enough information to answer that.".toList

/-- `AnswerGenerator.generate_answer`: the LLM call either raises a
transport error `e` (then the method returns
`f"Error generating answer: {e}"`) or yields a response, whose extracted
text is returned, with the canonical fallback substituted for the empty
string. -/
def AnswerGenerator.generate_answer (llm : Except String GeminiResponse) :
    List Char :=
  match llm with
  | .error e => "Error generating answer: ".toList ++ e.toList
  | .ok r =>
    let answer := AnswerGenerator.extract_answer r
    if answer = [] then noInfoFallback else answer

/-- `sum(a * b for a, b in zip(vec1, vec2))`. -/
def MongoDBStorage.dot_product (v w : List ℚ) : ℚ :=
  (List.zipWith (· * ·) v w).sum

/-- `sum(a * a for a in vec)`. -/
def MongoDBStorage.sum_squares (v : List ℚ) : ℚ :=
  (v.map fun a => a * a).sum

open Classical in
/-- `MongoDBStorage._cosine_similarity`: `0.0` on a length mismatch;
magnitudes are real square roots of the sums of squares (`** 0.5`); `0.0`
when either magnitude is zero; otherwise the quotient. -/
noncomputable def MongoDBStorage._cosine_similarity (v w : List ℚ) : ℝ :=
  if v.length ≠ w.length then 0
  else
    let magnitude1 : ℝ := Real.sqrt ((MongoDBStorage.sum_squares v : ℚ) : ℝ)
    let magnitude2 : ℝ := Real.sqrt ((MongoDBStorage.sum_squares w : ℚ) : ℝ)
    if magnitude1 = 0 ∨ magnitude2 = 0 then 0
    else ((MongoDBStorage.dot_product v w : ℚ) : ℝ) / (magnitude1 * magnitude2)

/-- Concrete input for the chunk-size-bound analysis: a 480-character
sentence, a space, and a second 480-character sentence (every
whitespace-delimited token has 480 ≤ 500 characters). -/
def c5text : List Char :=
  List.replicate 479 'a' ++ '.' :: ' ' :: (List.replicate 479 'b' ++ ['.'])

/-- 1000 pairwise distinct cache keys: `"a" * i`. -/
def c8Key (i : ℕ) : String := String.mk (List.replicate i 'a')

/-- A concrete embedding provider for the cache analysis. -/
def c8embed : String → List ℚ := fun _ => [1]

/-- The `EmbeddingGenerator` state reached from a fresh instance after
embedding 1000 pairwise distinct texts: its cache is full. -/
def c8Full : EmbeddingGenerator :=
  EmbeddingGenerator.runMany c8embed ⟨[], 0, 0⟩ ((List.range 1000).map c8Key)

/-- The cache contents after embedding the 1000 keys. -/
def c8Cache : List (String × List ℚ) :=
  (List.range 1000).map fun i => (c8Key i, c8embed (c8Key i))

/-- C7 helper: the first substitution of `_clean_text` leaves no newline
in its output, so the second substitution (whose pattern
`\n\s*\n\s*\n+` needs a literal newline) can never match. -/
theorem collapseWsAux_no_newline (b : Bool) (t : List Char) :
    '\n' ∉ collapseWsAux b t := by
  induction t generalizing b with
  | nil => simp [collapseWsAux]
  | cons c cs ih =>
    by_cases hc : isSpaceChar c = true
    · cases b with
      | true => simpa [collapseWsAux, hc] using ih true
      | false =>
        simp only [collapseWsAux, hc, if_true, Bool.false_eq_true, if_false,
          List.mem_cons, not_or]
        exact ⟨by decide, ih true⟩
    · have hcn : c ≠ '\n' := fun e => hc (by subst e; decide)
      have hc2 : isSpaceChar c = false := by simpa using hc
      simp only [collapseWsAux, hc2, Bool.false_eq_true, if_false,
        List.mem_cons, not_or]
      exact ⟨fun e => hcn e.symm, ih false⟩

/-- C7.  The cleaning step of the chunker destroys paragraph breaks
instead of preserving them: `_clean_text "a\n\nb"` is `"a b"`, which the
paragraph split (step 1 of the cascade) can no longer cut, and in general
no newline at all survives cleaning, because `re.sub(r'\s+', ' ', ...)`
runs before the newline-capping substitution and replaces every newline
with a space. -/
theorem clean_text_destroys_paragraph_breaks :
    TextChunker._clean_text ⟨500, 50⟩ "a\n\nb".toList = "a b".toList ∧
    pySplitPar (TextChunker._clean_text ⟨500, 50⟩ "a\n\nb".toList)
      = ["a b".toList] ∧
    ∀ t : List Char, (collapseWs t).all (fun c => c != '\n') = true :=
  ⟨by decide, by decide, fun t => List.all_eq_true.mpr fun c hc => by
    have hmem := collapseWsAux_no_newline false t
    simp only [bne_iff_ne, ne_eq]
    rintro rfl
    exact hmem hc⟩

set_option maxRecDepth 4000 in
/-- C5.  At the default parameters `chunk_size = 500`, `chunk_overlap = 50`,
an input whose whitespace-delimited tokens all have at most 500 characters
still produces a 531-character chunk: when the running chunk is flushed,
the next chunk starts as overlap tail plus the next full sentence and is
emitted without being re-split. -/
theorem chunk_size_bound_fails_at_defaults :
    (pyWords c5text).all (fun w => decide (w.length ≤ 500)) = true ∧
    ((TextChunker.chunk_text ⟨500, 50⟩ c5text).map fun c => c.text.length)
      = [480, 531] ∧
    ∃ c ∈ TextChunker.chunk_text ⟨500, 50⟩ c5text, 500 < c.text.length := by
  decide

/-- C6, counterexample.  With `chunk_overlap = 0` the slice
`text[-self.chunk_overlap:]` is the whole string, so the entire previous
chunk becomes the overlap: on `"ab. cd. ef."` with `chunk_size = 5` each
chunk is a prefix of the next one, and the overlap text stripped from
`_get_overlap` has 3 > 0 = `chunk_overlap` characters. -/
theorem overlap_bound_fails_at_zero_overlap :
    ((TextChunker.chunk_text ⟨5, 0⟩ "ab. cd. ef.".toList).map Chunk.text
      = ["ab.".toList, "ab. cd.".toList, "ab. cd. ef.".toList]) ∧
    pyStrip (TextChunker._get_overlap ⟨5, 0⟩ "ab.".toList) = "ab.".toList ∧
    ¬ ((pyStrip (TextChunker._get_overlap ⟨5, 0⟩ "ab.".toList)).length
        ≤ (TextChunker.mk 5 0).chunk_overlap) ∧
    "ab.".toList.isPrefixOf "ab. cd.".toList = true := by decide

/-- C3.  Whenever the Atlas aggregation raises (`some e`, any error,
including a missing index), `vector_search` returns exactly the result of
the in-process linear scan; no error escapes to the caller. -/
theorem vector_search_falls_back_on_error [LinearOrder α]
    (sim : List ℚ → List ℚ → α) (docs : List StoredDoc)
    (client_id : String) (query_embedding : List ℚ) (limit : ℕ)
    (min_score : α) (e : String) :
    MongoDBStorage.vector_search sim docs client_id query_embedding
        limit min_score (some e)
      = MongoDBStorage.python_fallback_search sim docs client_id
          query_embedding limit min_score := rfl

/-- C9.  `generate_answer` never raises: when extraction of the LLM
response yields the empty string the canonical fallback is returned, and a
transport error `e` becomes the answer text `"Error generating answer: e"`. -/
theorem generate_answer_never_raises :
    (∀ r : GeminiResponse, AnswerGenerator.extract_answer r = [] →
      AnswerGenerator.generate_answer (.ok r) = noInfoFallback) ∧
    (∀ e : String, AnswerGenerator.generate_answer (.error e)
      = "Error generating answer: ".toList ++ e.toList) := by
  constructor
  · intro r h
    simp [AnswerGenerator.generate_answer, h]
  · intro e
    rfl

/-- Witness for C9 at a concrete empty-shaped response and a concrete
transport error. -/
theorem generate_answer_never_raises_witness :
    AnswerGenerator.generate_answer (.ok .bare) = noInfoFallback ∧
    AnswerGenerator.generate_answer (.error "boom")
      = "Error generating answer: ".toList ++ "boom".toList :=
  ⟨generate_answer_never_raises.1 .bare rfl,
    generate_answer_never_raises.2 "boom"⟩

/-- C2 helper: every document stored by one `parse` call carries the
spider's own `client_id` and the parsed page's URL. -/
theorem parse_result_fields (ck : TextChunker) (store : List StoredDoc)
    (client_id url title : String) (content : List Char)
    (embedFn : List Char → Option (List ℚ)) :
    ∀ d ∈ Nexora001Spider.parse ck store client_id url title content embedFn,
      d.client_id = client_id ∧ d.source_url = url := by
  intro d hd
  unfold Nexora001Spider.parse at hd
  split at hd
  · simp at hd
  · split at hd
    · simp at hd
    · obtain ⟨c, _, rfl⟩ := List.mem_map.mp hd
      exact ⟨rfl, rfl⟩

/-- C2.  At-most-once ingestion per `(tenant, url)`: (1) when
`url_exists(client_id, url)` holds, `parse` stores nothing; (2) the
existence check requires both the tenant and the URL to match, i.e. it is
scoped to the tenant; (3) if one `parse` call stored chunks for
`(client_id, url)`, a second submission of the same pair — with any
content — stores nothing, so two submissions yield exactly one set of
chunks. -/
theorem parse_at_most_once (ck : TextChunker) (store : List StoredDoc)
    (client_id url title : String) (content : List Char)
    (embedFn : List Char → Option (List ℚ)) :
    (MongoDBStorage.url_exists store client_id url = true →
      Nexora001Spider.parse ck store client_id url title content embedFn
        = []) ∧
    (MongoDBStorage.url_exists store client_id url = true ↔
      ∃ d ∈ store, d.client_id = client_id ∧ d.source_url = url) ∧
    (∀ (title2 : String) (content2 : List Char)
        (embedFn2 : List Char → Option (List ℚ)),
      Nexora001Spider.parse ck store client_id url title content embedFn ≠ [] →
      Nexora001Spider.parse ck
        (store ++
          Nexora001Spider.parse ck store client_id url title content embedFn)
        client_id url title2 content2 embedFn2 = []) := by
  refine ⟨?_, ?_, ?_⟩
  · intro h
    simp [Nexora001Spider.parse, h]
  · simp only [MongoDBStorage.url_exists, decide_eq_true_eq,
      List.countP_pos_iff, Bool.and_eq_true, beq_iff_eq]
  · intro title2 content2 embedFn2 hne
    have hall := parse_result_fields ck store client_id url title content embedFn
    set new := Nexora001Spider.parse ck store client_id url title content embedFn
      with hnew
    have hex : MongoDBStorage.url_exists (store ++ new) client_id url = true := by
      simp only [MongoDBStorage.url_exists, decide_eq_true_eq,
        List.countP_pos_iff]
      obtain ⟨d, hd⟩ := List.exists_mem_of_ne_nil _ hne
      exact ⟨d, List.mem_append_right _ hd,
        by simp [(hall d hd).1, (hall d hd).2]⟩
    simp [Nexora001Spider.parse, hex]

/-- Witness for C2: a store already holding a document for `("A", "u")`
skips the resubmission, and a fresh store accepts the first submission but
skips the second. -/
theorem parse_at_most_once_witness :
    Nexora001Spider.parse ⟨500, 50⟩
        [⟨0, "A", List.replicate 100 'a', none, "u", "t"⟩] "A" "u" "t"
        (List.replicate 100 'a') (fun _ => none) = [] ∧
    Nexora001Spider.parse ⟨500, 50⟩
        ([] ++ Nexora001Spider.parse ⟨500, 50⟩ [] "A" "u" "t"
          (List.replicate 100 'a') (fun _ => none)) "A" "u" "t2"
        (List.replicate 100 'a') (fun _ => none) = [] :=
  ⟨(parse_at_most_once ⟨500, 50⟩ _ "A" "u" "t" _ _).1 (by decide),
   (parse_at_most_once ⟨500, 50⟩ [] "A" "u" "t" _ _).2.2 "t2" _ _ (by decide)⟩

/-- Association-list lookup skips a block in which the key is absent. -/
theorem lookup_append_of_eq_none {α β : Type} [BEq α]
    (l1 l2 : List (α × β)) (a : α) (h : l1.lookup a = none) :
    (l1 ++ l2).lookup a = l2.lookup a := by
  induction l1 with
  | nil => simp
  | cons p rest ih =>
    obtain ⟨k, v⟩ := p
    cases hak : a == k with
    | true => simp [List.lookup, hak] at h
    | false =>
      simp only [List.lookup, hak] at h
      simpa [List.lookup, hak] using ih h

/-- Association-list lookup misses when the key differs from every stored
key. -/
theorem lookup_eq_none_of_forall_ne {α β : Type} [BEq α]
    (l : List (α × β)) (a : α) (h : ∀ p ∈ l, (a == p.1) = false) :
    l.lookup a = none := by
  induction l with
  | nil => simp
  | cons p rest ih =>
    obtain ⟨k, v⟩ := p
    have hk := h (k, v) (List.mem_cons_self _ _)
    simp only [List.lookup, hk]
    exact ih fun q hq => h q (List.mem_cons_of_mem _ hq)

/-- Embedding fresh, pairwise distinct texts into a cache with enough room
appends one entry per text, records only misses, and never evicts. -/
theorem runMany_fresh (f : String → List ℚ) (texts : List String) :
    ∀ g : EmbeddingGenerator,
      (∀ t ∈ texts, g.cache.lookup t = none) → texts.Nodup →
      g.cache.length + texts.length ≤ 1000 →
      (EmbeddingGenerator.runMany f g texts).cache
          = g.cache ++ texts.map (fun t => (t, f t)) ∧
      (EmbeddingGenerator.runMany f g texts).cache_hits = g.cache_hits ∧
      (EmbeddingGenerator.runMany f g texts).cache_misses
          = g.cache_misses + texts.length := by
  induction texts with
  | nil => intro g _ _ _; simp [EmbeddingGenerator.runMany]
  | cons t rest ih =>
    intro g hfresh hnodup hlen
    have ht : g.cache.lookup t = none := hfresh t (List.mem_cons_self _ _)
    have hroom : g.cache.length < 1000 := by
      have := hlen; simp [List.length_cons] at this; omega
    have hstep : (EmbeddingGenerator.generate_embedding f g t).2
        = ⟨g.cache ++ [(t, f t)], g.cache_hits, g.cache_misses + 1⟩ := by
      simp [EmbeddingGenerator.generate_embedding, ht, hroom]
    have hrun : EmbeddingGenerator.runMany f g (t :: rest)
        = EmbeddingGenerator.runMany f
            (EmbeddingGenerator.generate_embedding f g t).2 rest := by
      simp [EmbeddingGenerator.runMany, List.foldl_cons]
    have hne : ∀ s ∈ rest, (s == t) = false := by
      intro s hs
      have : s ≠ t := fun e => (List.nodup_cons.mp hnodup).1 (e ▸ hs)
      simpa using this
    have hfresh2 : ∀ s ∈ rest,
        ((EmbeddingGenerator.generate_embedding f g t).2).cache.lookup s
          = none := by
      intro s hs
      rw [hstep]
      rw [lookup_append_of_eq_none _ _ _ (hfresh s (List.mem_cons_of_mem _ hs))]
      simp [List.lookup, hne s hs]
    have hlen2 : ((EmbeddingGenerator.generate_embedding f g t).2).cache.length
        + rest.length ≤ 1000 := by
      rw [hstep]
      simp only [List.length_append, List.length_cons, List.length_nil]
      simp [List.length_cons] at hlen
      omega
    obtain ⟨hc, hh, hm⟩ := ih _ hfresh2 (List.nodup_cons.mp hnodup).2 hlen2
    rw [hrun] at *
    refine ⟨?_, ?_, ?_⟩
    · rw [hc, hstep]; simp
    · rw [hh, hstep]
    · rw [hm, hstep]; simp [List.length_cons]; omega

/-- The 1000 keys `"a" * i` are pairwise distinct. -/
theorem c8Key_injective : Function.Injective c8Key := by
  intro i j h
  have hdata : List.replicate i 'a' = List.replicate j 'a' :=
    congrArg String.data h
  have := congrArg List.length hdata
  simpa using this

/-- A generator state with known components is the corresponding literal. -/
theorem embeddingGenerator_eq_mk (g : EmbeddingGenerator)
    (c : List (String × List ℚ)) (hs ms : ℕ)
    (h1 : g.cache = c) (h2 : g.cache_hits = hs) (h3 : g.cache_misses = ms) :
    g = ⟨c, hs, ms⟩ := by
  cases g
  simp_all

/-- The reachable state `c8Full` holds exactly the 1000 fresh entries. -/
theorem c8Full_spec : c8Full = ⟨c8Cache, 0, 1000⟩ := by
  obtain ⟨hc, hh, hm⟩ := runMany_fresh c8embed ((List.range 1000).map c8Key)
    ⟨[], 0, 0⟩ (by intro t _; simp [List.lookup])
    ((List.nodup_range 1000).map c8Key_injective)
    (by simp)
  refine embeddingGenerator_eq_mk _ _ _ _ ?_ ?_ ?_
  · show c8Full.cache = c8Cache
    unfold c8Full
    rw [hc, List.nil_append, List.map_map]
    rfl
  · show c8Full.cache_hits = 0
    unfold c8Full
    rw [hh]
  · show c8Full.cache_misses = 1000
    unfold c8Full
    rw [hm]
    simp

/-- `c8Cache` holds 1000 entries. -/
theorem c8Cache_length : c8Cache.length = 1000 := by
  unfold c8Cache
  simp

/-- The probe text `"b"` is none of the keys of `c8Cache`. -/
theorem c8_lookup_probe : c8Cache.lookup "b" = none := by
  apply lookup_eq_none_of_forall_ne
  intro p hp
  obtain ⟨i, _, rfl⟩ := List.mem_map.mp hp
  have : "b" ≠ c8Key i := by
    intro h
    have hdata : ['b'] = List.replicate i 'a' := congrArg String.data h
    match i, hdata with
    | 0, hdata => simp at hdata
    | n + 1, hdata =>
      rw [List.replicate_succ] at hdata
      have : 'b' = 'a' := (List.cons.injEq _ _ _ _ ▸ hdata).1
      exact absurd this (by decide)
  simpa using this

/-- A missed lookup on a full cache: the vector is recomputed, the miss
counter is bumped, and the cache is left untouched. -/
theorem generate_embedding_miss_full (f : String → List ℚ)
    (cache : List (String × List ℚ)) (hits misses : ℕ) (x : String)
    (hl : cache.lookup x = none) (hfull : ¬ cache.length < 1000) :
    EmbeddingGenerator.generate_embedding f ⟨cache, hits, misses⟩ x
      = (f x, ⟨cache, hits, misses + 1⟩) := by
  unfold EmbeddingGenerator.generate_embedding
  dsimp only
  rw [hl]
  simp only [hfull, if_false]

/-- C8, counterexample.  In the reachable state `c8Full` (a fresh
`EmbeddingGenerator` after embedding 1000 pairwise distinct texts) the
cache is full, and the cap is 1000 with no eviction: embedding the new
text `"b"` twice leaves the cache untouched both times, and the second
call records a miss, not a hit. -/
theorem embedding_cache_full_second_call_misses :
    c8Full.cache.length = 1000 ∧
    (EmbeddingGenerator.generate_embedding c8embed c8Full "b").2.cache
      = c8Full.cache ∧
    (EmbeddingGenerator.generate_embedding c8embed c8Full "b").2.cache_hits
      = 0 ∧
    (EmbeddingGenerator.generate_embedding c8embed c8Full "b").2.cache_misses
      = 1001 ∧
    (EmbeddingGenerator.generate_embedding c8embed
        (EmbeddingGenerator.generate_embedding c8embed c8Full "b").2
        "b").2.cache_hits = 0 ∧
    (EmbeddingGenerator.generate_embedding c8embed
        (EmbeddingGenerator.generate_embedding c8embed c8Full "b").2
        "b").2.cache_misses = 1002 := by
  have hfull : ¬ c8Cache.length < 1000 := by
    rw [c8Cache_length]
    omega
  have hstep := generate_embedding_miss_full c8embed c8Cache 0 1000 "b"
    c8_lookup_probe hfull
  have hstep2 := generate_embedding_miss_full c8embed c8Cache 0 (1000 + 1) "b"
    c8_lookup_probe hfull
  rw [c8Full_spec, hstep]
  dsimp only
  rw [hstep2]
  dsimp only
  exact ⟨c8Cache_length, rfl, rfl, by norm_num, rfl, by norm_num⟩

/-- C8, amended.  As long as the cache is not full (or the text is already
cached), two successive `generate_embedding` calls for the same text
return the identical vector and the second call records a cache hit; and
the cache never grows beyond 1000 entries (at the cap, new vectors are
simply not cached — there is no eviction). -/
theorem generate_embedding_cache_correct (f : String → List ℚ)
    (g : EmbeddingGenerator) (x : String)
    (h : g.cache.length < 1000 ∨ (g.cache.lookup x).isSome = true) :
    ((EmbeddingGenerator.generate_embedding f
        (EmbeddingGenerator.generate_embedding f g x).2 x).1
      = (EmbeddingGenerator.generate_embedding f g x).1) ∧
    ((EmbeddingGenerator.generate_embedding f
        (EmbeddingGenerator.generate_embedding f g x).2 x).2.cache_hits
      = (EmbeddingGenerator.generate_embedding f g x).2.cache_hits + 1) ∧
    (∀ (y : String), g.cache.length ≤ 1000 →
      (EmbeddingGenerator.generate_embedding f g y).2.cache.length ≤ 1000) := by
  refine ⟨?_, ?_, ?_⟩
  all_goals
    first
    | (cases hl : g.cache.lookup x with
       | some v =>
         simp [EmbeddingGenerator.generate_embedding, hl]
       | none =>
         have hroom : g.cache.length < 1000 := by
           rcases h with h | h
           · exact h
           · rw [hl] at h; simp at h
         have hsecond : (g.cache ++ [(x, f x)]).lookup x = some (f x) := by
           rw [lookup_append_of_eq_none _ _ _ hl]
           simp [List.lookup]
         simp [EmbeddingGenerator.generate_embedding, hl, hroom, hsecond])
    | (intro y hy
       cases hly : g.cache.lookup y with
       | some v => simp [EmbeddingGenerator.generate_embedding, hly, hy]
       | none =>
         by_cases hroom : g.cache.length < 1000
         · simp only [EmbeddingGenerator.generate_embedding, hly, hroom,
             if_true]
           simp only [List.length_append, List.length_cons, List.length_nil]
           omega
         · simp [EmbeddingGenerator.generate_embedding, hly, hroom, hy])

/-- Witness for C8 (amended) at a fresh generator and the text `"a"`. -/
theorem generate_embedding_cache_correct_witness :
    ((⟨[], 0, 0⟩ : EmbeddingGenerator).cache.length < 1000 ∨
      ((⟨[], 0, 0⟩ : EmbeddingGenerator).cache.lookup "a").isSome = true) ∧
    ((EmbeddingGenerator.generate_embedding c8embed
        (EmbeddingGenerator.generate_embedding c8embed ⟨[], 0, 0⟩ "a").2 "a").1
      = (EmbeddingGenerator.generate_embedding c8embed ⟨[], 0, 0⟩ "a").1 ∧
     (EmbeddingGenerator.generate_embedding c8embed
        (EmbeddingGenerator.generate_embedding c8embed ⟨[], 0, 0⟩ "a").2
          "a").2.cache_hits
      = (EmbeddingGenerator.generate_embedding c8embed
          ⟨[], 0, 0⟩ "a").2.cache_hits + 1 ∧
     (∀ (y : String), (⟨[], 0, 0⟩ : EmbeddingGenerator).cache.length ≤ 1000 →
       (EmbeddingGenerator.generate_embedding c8embed
         (⟨[], 0, 0⟩ : EmbeddingGenerator) y).2.cache.length ≤ 1000)) :=
  ⟨Or.inl (by decide),
    generate_embedding_cache_correct c8embed ⟨[], 0, 0⟩ "a"
      (Or.inl (by decide))⟩

/-- The Python sort by decreasing score keeps exactly the input elements. -/
theorem sortByKeyDesc_mem [LinearOrder α] (key : β → α) (l : List β) (x : β) :
    x ∈ sortByKeyDesc key l ↔ x ∈ l :=
  List.mem_mergeSort

/-- The Python sort by decreasing score yields non-increasing keys. -/
theorem sortByKeyDesc_pairwise [LinearOrder α] (key : β → α) (l : List β) :
    (sortByKeyDesc key l).Pairwise (fun a b => key b ≤ key a) := by
  have h := @List.sorted_mergeSort β
    (fun a b : β => decide (key b ≤ key a))
    (fun a b c h1 h2 => by
      simp only [decide_eq_true_eq] at h1 h2 ⊢
      exact le_trans h2 h1)
    (fun a b => by
      simp only [Bool.or_eq_true, decide_eq_true_eq]
      exact le_total (key b) (key a))
    l
  exact h.imp fun hab => of_decide_eq_true hab

/-- Every hit of the Atlas aggregation comes from a stored document of the
requested tenant and carries that document. -/
theorem atlas_hit_source [LinearOrder α] (sim : List ℚ → List ℚ → α)
    (docs : List StoredDoc) (client_id : String) (query_embedding : List ℚ)
    (limit : ℕ) (min_score : α) (h : Hit α)
    (hmem : h ∈ MongoDBStorage.atlas_vector_search sim docs client_id
      query_embedding limit min_score) :
    h.doc ∈ docs ∧ h.doc.client_id = client_id := by
  unfold MongoDBStorage.atlas_vector_search at hmem
  have h1 := (List.mem_filter.mp hmem).1
  have h2 := List.mem_of_mem_take h1
  have h3 := (sortByKeyDesc_mem _ _ _).mp h2
  obtain ⟨d, hd, heq⟩ := List.mem_filterMap.mp h3
  by_cases hc : (d.client_id == client_id) = true
  · rw [if_pos hc] at heq
    obtain ⟨e, _, rfl⟩ := Option.map_eq_some'.mp heq
    exact ⟨hd, by simpa using hc⟩
  · rw [if_neg hc] at heq
    exact absurd heq (by simp)

/-- Every hit of the linear fallback comes from a stored document of the
requested tenant, and its score clears the threshold. -/
theorem fallback_hit_source [LinearOrder α] (sim : List ℚ → List ℚ → α)
    (docs : List StoredDoc) (client_id : String) (query_embedding : List ℚ)
    (limit : ℕ) (min_score : α) (h : Hit α)
    (hmem : h ∈ MongoDBStorage.python_fallback_search sim docs client_id
      query_embedding limit min_score) :
    h.doc ∈ docs ∧ h.doc.client_id = client_id
      ∧ min_score ≤ h.similarity_score := by
  unfold MongoDBStorage.python_fallback_search at hmem
  have h2 := List.mem_of_mem_take hmem
  have h3 := (sortByKeyDesc_mem _ _ _).mp h2
  obtain ⟨d, hd, heq⟩ := List.mem_filterMap.mp h3
  obtain ⟨hddocs, hdfields⟩ := List.mem_filter.mp hd
  cases hemb : d.embedding with
  | none => rw [hemb] at heq; exact absurd heq (by simp)
  | some e =>
    rw [hemb] at heq
    dsimp only at heq
    by_cases hsc : (min_score ≤ sim query_embedding e)
    · rw [if_pos (by simpa using hsc)] at heq
      obtain rfl := Option.some.injEq _ _ ▸ heq
      have hclient : d.client_id = client_id := by
        have := (Bool.and_eq_true _ _).mp hdfields
        simpa using this.1
      exact ⟨hddocs, by simpa using hclient, by simpa using hsc⟩
    · rw [if_neg (by simpa using hsc)] at heq
      exact absurd heq (by simp)

/-- Every hit of the Qdrant search comes from a stored point of the
requested tenant. -/
theorem qdrant_hit_source [LinearOrder α] (sim : List ℚ → List ℚ → α)
    (points : List QdrantPoint) (client_id : String)
    (query_embedding : List ℚ) (limit : ℕ) (min_score : α)
    (searchError : Option String) (h : QdrantHit α)
    (hmem : h ∈ QdrantStorage.vector_search sim points client_id
      query_embedding limit min_score searchError) :
    h.point ∈ points ∧ h.point.client_id = client_id := by
  cases searchError with
  | some e => exact absurd hmem (by simp [QdrantStorage.vector_search])
  | none =>
    unfold QdrantStorage.vector_search at hmem
    have h2 := List.mem_of_mem_take hmem
    have h3 := (sortByKeyDesc_mem _ _ _).mp h2
    have h4 := (List.mem_filter.mp h3).1
    obtain ⟨p, hp, rfl⟩ := List.mem_map.mp h4
    obtain ⟨hpmem, hpc⟩ := List.mem_filter.mp hp
    exact ⟨hpmem, by simpa using hpc⟩

/-- C1.  Tenant isolation: on the accelerated Atlas path, on the linear
fallback, and on the Qdrant backend alike, `vector_search(T, ...)` returns
only hits whose stored `client_id` equals `T`. -/
theorem tenant_isolation_of_search [LinearOrder α]
    (sim : List ℚ → List ℚ → α) (docs : List StoredDoc)
    (points : List QdrantPoint) (client_id : String)
    (query_embedding : List ℚ) (limit : ℕ) (min_score : α)
    (atlasError qdrantError : Option String) :
    (∀ h ∈ MongoDBStorage.vector_search sim docs client_id query_embedding
        limit min_score atlasError, h.doc.client_id = client_id) ∧
    (∀ h ∈ QdrantStorage.vector_search sim points client_id query_embedding
        limit min_score qdrantError, h.point.client_id = client_id) := by
  constructor
  · intro h hmem
    cases atlasError with
    | none =>
      exact (atlas_hit_source sim docs client_id query_embedding limit
        min_score h hmem).2
    | some e =>
      exact (fallback_hit_source sim docs client_id query_embedding limit
        min_score h hmem).2.1
  · intro h hmem
    exact (qdrant_hit_source sim points client_id query_embedding limit
      min_score qdrantError h hmem).2

unseal List.merge List.mergeSort in
/-- Witness for C1: a one-document store and a one-point collection for
tenant `"A"`; the returned hits exist and carry `client_id = "A"`. -/
theorem tenant_isolation_of_search_witness :
    (Hit.mk ⟨0, "A", [], some [1], "u", "t"⟩ (0 : ℤ)
        ∈ MongoDBStorage.vector_search (fun _ _ => (0 : ℤ))
          [⟨0, "A", [], some [1], "u", "t"⟩] "A" [1] 1 0 none) ∧
    (Hit.mk ⟨0, "A", [], some [1], "u", "t"⟩ (0 : ℤ)).doc.client_id = "A" ∧
    (QdrantHit.mk ⟨0, [1], "A", []⟩ (0 : ℤ)
        ∈ QdrantStorage.vector_search (fun _ _ => (0 : ℤ))
          [⟨0, [1], "A", []⟩] "A" [1] 1 0 none) ∧
    (QdrantHit.mk ⟨0, [1], "A", []⟩ (0 : ℤ)).point.client_id = "A" :=
  ⟨by decide,
   (tenant_isolation_of_search (fun _ _ => (0 : ℤ))
      [⟨0, "A", [], some [1], "u", "t"⟩] [⟨0, [1], "A", []⟩]
      "A" [1] 1 0 none none).1 _ (by decide),
   by decide,
   (tenant_isolation_of_search (fun _ _ => (0 : ℤ))
      [⟨0, "A", [], some [1], "u", "t"⟩] [⟨0, [1], "A", []⟩]
      "A" [1] 1 0 none none).2 _ (by decide)⟩

/-- The Atlas aggregation returns at most `limit` hits, each clearing the
threshold, in non-increasing score order. -/
theorem atlas_contract [LinearOrder α] (sim : List ℚ → List ℚ → α)
    (docs : List StoredDoc) (client_id : String) (query_embedding : List ℚ)
    (limit : ℕ) (min_score : α) :
    (MongoDBStorage.atlas_vector_search sim docs client_id query_embedding
        limit min_score).length ≤ limit ∧
    (∀ h ∈ MongoDBStorage.atlas_vector_search sim docs client_id
        query_embedding limit min_score, min_score ≤ h.similarity_score) ∧
    (MongoDBStorage.atlas_vector_search sim docs client_id query_embedding
        limit min_score).Pairwise
      (fun a b => b.similarity_score ≤ a.similarity_score) := by
  unfold MongoDBStorage.atlas_vector_search
  refine ⟨?_, ?_, ?_⟩
  · exact le_trans (List.length_filter_le _ _) (List.length_take_le _ _)
  · intro h hmem
    have := (List.mem_filter.mp hmem).2
    exact of_decide_eq_true this
  · exact List.Pairwise.sublist (List.filter_sublist _)
      (List.Pairwise.sublist (List.take_sublist _ _)
        (sortByKeyDesc_pairwise _ _))

/-- The linear fallback returns at most `limit` hits, each clearing the
threshold, in non-increasing score order. -/
theorem fallback_contract [LinearOrder α] (sim : List ℚ → List ℚ → α)
    (docs : List StoredDoc) (client_id : String) (query_embedding : List ℚ)
    (limit : ℕ) (min_score : α) :
    (MongoDBStorage.python_fallback_search sim docs client_id query_embedding
        limit min_score).length ≤ limit ∧
    (∀ h ∈ MongoDBStorage.python_fallback_search sim docs client_id
        query_embedding limit min_score, min_score ≤ h.similarity_score) ∧
    (MongoDBStorage.python_fallback_search sim docs client_id query_embedding
        limit min_score).Pairwise
      (fun a b => b.similarity_score ≤ a.similarity_score) := by
  refine ⟨?_, ?_, ?_⟩
  · unfold MongoDBStorage.python_fallback_search
    exact List.length_take_le _ _
  · intro h hmem
    exact (fallback_hit_source sim docs client_id query_embedding limit
      min_score h hmem).2.2
  · unfold MongoDBStorage.python_fallback_search
    exact List.Pairwise.sublist (List.take_sublist _ _)
      (sortByKeyDesc_pairwise _ _)

/-- C4.  Search result contract: `vector_search(T, qv, k, min_score)` —
on either path — returns at most `k` hits, every hit's score is at least
`min_score`, the hits are in non-increasing score order, and
`DocumentRetriever.retrieve`, which formats the hits in order, is
therefore non-increasing in `score` as well. -/
theorem search_result_contract [LinearOrder α]
    (sim : List ℚ → List ℚ → α) (docs : List StoredDoc) (client_id : String)
    (query_embedding : List ℚ) (limit : ℕ) (min_score : α)
    (atlasError : Option String) :
    (MongoDBStorage.vector_search sim docs client_id query_embedding
        limit min_score atlasError).length ≤ limit ∧
    (∀ h ∈ MongoDBStorage.vector_search sim docs client_id query_embedding
        limit min_score atlasError, min_score ≤ h.similarity_score) ∧
    (MongoDBStorage.vector_search sim docs client_id query_embedding
        limit min_score atlasError).Pairwise
      (fun a b => b.similarity_score ≤ a.similarity_score) ∧
    (DocumentRetriever.retrieve sim docs client_id query_embedding
        limit min_score atlasError).Pairwise
      (fun a b => b.score ≤ a.score) := by
  have hcore :
      (MongoDBStorage.vector_search sim docs client_id query_embedding
          limit min_score atlasError).length ≤ limit ∧
      (∀ h ∈ MongoDBStorage.vector_search sim docs client_id query_embedding
          limit min_score atlasError, min_score ≤ h.similarity_score) ∧
      (MongoDBStorage.vector_search sim docs client_id query_embedding
          limit min_score atlasError).Pairwise
        (fun a b => b.similarity_score ≤ a.similarity_score) := by
    cases atlasError with
    | none =>
      exact atlas_contract sim docs client_id query_embedding limit min_score
    | some e =>
      exact fallback_contract sim docs client_id query_embedding limit
        min_score
  refine ⟨hcore.1, hcore.2.1, hcore.2.2, ?_⟩
  unfold DocumentRetriever.retrieve
  exact List.pairwise_map.mpr (hcore.2.2.imp fun hab => hab)

unseal List.merge List.mergeSort in
/-- Witness for C4 on a concrete one-document store (both paths). -/
theorem search_result_contract_witness :
    ((MongoDBStorage.vector_search (fun _ _ => (0 : ℤ))
        [⟨0, "A", [], some [1], "u", "t"⟩] "A" [1] 1 0 none).length ≤ 1) ∧
    ((0 : ℤ) ≤ (Hit.mk ⟨0, "A", [], some [1], "u", "t"⟩
        (0 : ℤ)).similarity_score) ∧
    ((MongoDBStorage.vector_search (fun _ _ => (0 : ℤ))
        [⟨0, "A", [], some [1], "u", "t"⟩] "A" [1] 1 0
        (some "index missing")).length ≤ 1) :=
  ⟨(search_result_contract (fun _ _ => (0 : ℤ))
      [⟨0, "A", [], some [1], "u", "t"⟩] "A" [1] 1 0 none).1,
   (search_result_contract (fun _ _ => (0 : ℤ))
      [⟨0, "A", [], some [1], "u", "t"⟩] "A" [1] 1 0 none).2.1 _ (by decide),
   (search_result_contract (fun _ _ => (0 : ℤ))
      [⟨0, "A", [], some [1], "u", "t"⟩] "A" [1] 1 0
      (some "index missing")).1⟩

/-- `dropWhile` is the identity when the head already fails the predicate. -/
theorem dropWhile_of_head_false {p : Char → Bool} {c : Char} {cs : List Char}
    (h : p c = false) : List.dropWhile p (c :: cs) = c :: cs := by
  simp [List.dropWhile_cons, h]

/-- A non-empty suffix whose head fails the predicate survives `dropWhile`. -/
theorem suffix_dropWhile {p : Char → Bool} {s : List Char} :
    ∀ {l : List Char}, s <:+ l → ∀ (hs : s ≠ []), p (s.head hs) = false →
      s <:+ l.dropWhile p := by
  intro l
  induction l with
  | nil =>
    intro hsl hs _
    exact absurd (List.suffix_nil.mp hsl) hs
  | cons c cs ih =>
    intro hsl hs hhead
    rcases List.suffix_cons_iff.mp hsl with heq | hsuf
    · subst heq
      have hc : p c = false := hhead
      rw [dropWhile_of_head_false hc]
    · by_cases hc : p c = true
      · rw [List.dropWhile_cons, if_pos hc]
        exact ih hsuf hs hhead
      · rw [dropWhile_of_head_false (by simpa using hc)]
        exact hsl

/-- `rstrip` of `a ++ b` keeps `a` intact when `rstrip b` is non-empty. -/
theorem rstripC_append (a b : List Char) (h : rstripC b ≠ []) :
    rstripC (a ++ b) = a ++ rstripC b := by
  have hb : b.reverse.dropWhile isSpaceChar ≠ [] := by
    intro he
    exact h (by simp [rstripC, he])
  unfold rstripC
  rw [List.reverse_append, List.dropWhile_append,
    if_neg (by simpa [List.isEmpty_eq_false] using hb), List.reverse_append,
    List.reverse_reverse]

/-- Stripping never lengthens a string. -/
theorem pyStrip_length_le (l : List Char) : (pyStrip l).length ≤ l.length := by
  unfold pyStrip lstripC rstripC
  calc ((l.reverse.dropWhile isSpaceChar).reverse.dropWhile
          isSpaceChar).length
      ≤ (l.reverse.dropWhile isSpaceChar).reverse.length :=
        (List.dropWhile_sublist _).length_le
    _ = (l.reverse.dropWhile isSpaceChar).length := by simp
    _ ≤ l.reverse.length := (List.dropWhile_sublist _).length_le
    _ = l.length := by simp

/-- A trailing space disappears under `strip`. -/
theorem pyStrip_append_space (l : List Char) :
    pyStrip (l ++ [' ']) = pyStrip l := by
  unfold pyStrip lstripC
  have : rstripC (l ++ [' ']) = rstripC l := by
    unfold rstripC
    rw [List.reverse_append]
    simp [List.dropWhile_cons, isSpaceChar]
  rw [this]

/-- A string whose first and last characters are not whitespace is fixed
by `strip`. -/
theorem pyStrip_eq_self (c : Char) (cs : List Char)
    (hhead : isSpaceChar c = false)
    (hlast : isSpaceChar ((c :: cs).getLast (List.cons_ne_nil c cs))
      = false) :
    pyStrip (c :: cs) = c :: cs := by
  have hrevne : (c :: cs).reverse ≠ [] := by simp
  obtain ⟨d, ds, hds⟩ := List.exists_cons_of_ne_nil hrevne
  have hd : d = (c :: cs).getLast (List.cons_ne_nil c cs) := by
    have h1 : (c :: cs).reverse.head? = some d := by rw [hds]; rfl
    rw [List.head?_reverse,
      List.getLast?_eq_getLast _ (List.cons_ne_nil c cs)] at h1
    exact (Option.some.injEq _ _ ▸ h1).symm
  have hrs : rstripC (c :: cs) = c :: cs := by
    unfold rstripC
    rw [hds, dropWhile_of_head_false (by rw [hd]; exact hlast), ← hds]
    simp
  show lstripC (rstripC (c :: cs)) = c :: cs
  rw [hrs]
  exact dropWhile_of_head_false hhead

/-- `strip` is idempotent. -/
theorem pyStrip_idem (l : List Char) : pyStrip (pyStrip l) = pyStrip l := by
  cases h : pyStrip l with
  | nil => simp [pyStrip, lstripC, rstripC]
  | cons c cs =>
    have hw : List.dropWhile isSpaceChar (rstripC l) ≠ [] := by
      intro he
      rw [show List.dropWhile isSpaceChar (rstripC l) = pyStrip l from rfl,
        h] at he
      exact List.cons_ne_nil _ _ he
    have hhead : isSpaceChar c = false := by
      have hnot := List.head_dropWhile_not isSpaceChar (rstripC l) hw
      have hcast : (List.dropWhile isSpaceChar (rstripC l)).head hw = c := by
        have heq : List.dropWhile isSpaceChar (rstripC l) = c :: cs := h
        simp [heq]
      rw [hcast] at hnot
      exact hnot
    have hrne : rstripC l ≠ [] := by
      intro he
      rw [pyStrip, he] at h
      simp [lstripC] at h
    have hsuffix2 : (c :: cs) <:+ rstripC l := by
      rw [← h]
      exact List.dropWhile_suffix _
    have hlast2 : isSpaceChar ((c :: cs).getLast (List.cons_ne_nil c cs))
        = false := by
      rw [List.IsSuffix.getLast hsuffix2 (List.cons_ne_nil c cs)]
      have hrev : l.reverse.dropWhile isSpaceChar ≠ [] := by
        intro he
        exact hrne (by simp [rstripC, he])
      have h1 : (rstripC l).getLast (by simpa [rstripC] using hrne)
          = (l.reverse.dropWhile isSpaceChar).head hrev := by
        unfold rstripC
        exact List.getLast_reverse _
      rw [h1]
      exact List.head_dropWhile_not _ _ _
    exact pyStrip_eq_self c cs hhead hlast2

/-- A non-empty stripped suffix is a suffix of the stripped string. -/
theorem suffix_pyStrip {u t : List Char} (hu : u <:+ t)
    (hne : pyStrip u ≠ []) : pyStrip u <:+ pyStrip t := by
  obtain ⟨a, rfl⟩ := hu
  have hrne : rstripC u ≠ [] := by
    intro he
    rw [pyStrip, he] at hne
    simp [lstripC] at hne
  have h2 : rstripC (a ++ u) = a ++ rstripC u := rstripC_append a u hrne
  have h3 : pyStrip u <:+ a ++ rstripC u :=
    List.IsSuffix.trans (List.dropWhile_suffix _) (List.suffix_append a _)
  have hhead : isSpaceChar ((pyStrip u).head hne) = false := by
    have hw : List.dropWhile isSpaceChar (rstripC u) ≠ [] := hne
    exact List.head_dropWhile_not isSpaceChar (rstripC u) hw
  have h4 := suffix_dropWhile h3 hne hhead
  have heq : pyStrip (a ++ u)
      = List.dropWhile isSpaceChar (a ++ rstripC u) := by
    unfold pyStrip lstripC
    rw [h2]
  rw [heq]
  exact h4

/-- The common shape of `_get_overlap`'s non-degenerate branch. -/
theorem strip_tail_bounded (co : ℕ) (text ov2 : List Char)
    (hsub : ov2 <:+ text) (hl : ov2.length ≤ co) :
    (pyStrip (if pyStrip ov2 ≠ [] then pyStrip ov2 ++ [' '] else [])).length
      ≤ co ∧
    (pyStrip (if pyStrip ov2 ≠ [] then pyStrip ov2 ++ [' '] else []) ≠ [] →
      pyStrip (if pyStrip ov2 ≠ [] then pyStrip ov2 ++ [' '] else [])
        <:+ pyStrip text) := by
  by_cases hne : pyStrip ov2 ≠ []
  · rw [if_pos hne, pyStrip_append_space, pyStrip_idem]
    refine ⟨le_trans (pyStrip_length_le ov2) hl, fun _ => ?_⟩
    exact suffix_pyStrip hsub hne
  · rw [if_neg hne]
    refine ⟨by simp [pyStrip, lstripC, rstripC], fun hcon => ?_⟩
    exact absurd (by simp [pyStrip, lstripC, rstripC]) hcon

/-- C6, amended.  For `chunk_overlap ≥ 1` the overlap text computed by
`_get_overlap` — the text `_split_text` and `_split_by_sentences` prepend
to the next chunk — has, after stripping, at most `chunk_overlap`
characters, and when non-empty it is a suffix of the stripped
just-emitted chunk.  (For `chunk_overlap = 0` the claim fails; see the
counterexample.) -/
theorem get_overlap_bounded_and_suffix (ck : TextChunker)
    (hpos : 1 ≤ ck.chunk_overlap) (text : List Char) :
    (pyStrip (ck._get_overlap text)).length ≤ ck.chunk_overlap ∧
    (pyStrip (ck._get_overlap text) ≠ [] →
      pyStrip (ck._get_overlap text) <:+ pyStrip text) := by
  unfold TextChunker._get_overlap
  by_cases hlen : text.length ≤ ck.chunk_overlap
  · rw [if_pos hlen, pyStrip_append_space]
    exact ⟨le_trans (pyStrip_length_le text) hlen, fun _ => List.suffix_rfl⟩
  · rw [if_neg hlen]
    have hslice : pySliceLast ck.chunk_overlap text
        = text.drop (text.length - ck.chunk_overlap) := by
      unfold pySliceLast
      rw [if_neg (by omega)]
    have hovlen : (pySliceLast ck.chunk_overlap text).length
        ≤ ck.chunk_overlap := by
      rw [hslice, List.length_drop]
      omega
    have hovsuf : pySliceLast ck.chunk_overlap text <:+ text := by
      rw [hslice]
      exact List.drop_suffix _ _
    dsimp only
    apply strip_tail_bounded ck.chunk_overlap text
    · split
      · exact List.IsSuffix.trans (List.drop_suffix _ _) hovsuf
      · exact hovsuf
    · split
      · rw [List.length_drop]
        omega
      · exact hovlen

/-- Witness for C6 (amended) at the default parameters and a concrete
chunk. -/
theorem get_overlap_bounded_and_suffix_witness :
    1 ≤ (TextChunker.mk 500 50).chunk_overlap ∧
    ((pyStrip (TextChunker._get_overlap ⟨500, 50⟩ "abcdefgh.".toList)).length
        ≤ (TextChunker.mk 500 50).chunk_overlap ∧
     (pyStrip (TextChunker._get_overlap ⟨500, 50⟩ "abcdefgh.".toList) ≠ [] →
       pyStrip (TextChunker._get_overlap ⟨500, 50⟩ "abcdefgh.".toList)
         <:+ pyStrip "abcdefgh.".toList)) :=
  ⟨by decide,
    get_overlap_bounded_and_suffix ⟨500, 50⟩ (by decide) "abcdefgh.".toList⟩

/-- A sum of squares of rationals is non-negative. -/
theorem sum_squares_nonneg (v : List ℚ) :
    0 ≤ MongoDBStorage.sum_squares v := by
  unfold MongoDBStorage.sum_squares
  apply List.sum_nonneg
  intro x hx
  obtain ⟨a, _, rfl⟩ := List.mem_map.mp hx
  exact mul_self_nonneg a

/-- Cauchy–Schwarz for the zipped products computed by
`_cosine_similarity`. -/
theorem cauchy_schwarz_list (v w : List ℚ) :
    MongoDBStorage.dot_product v w ^ 2
      ≤ MongoDBStorage.sum_squares v * MongoDBStorage.sum_squares w := by
  induction v generalizing w with
  | nil =>
    simp [MongoDBStorage.dot_product, MongoDBStorage.sum_squares]
  | cons a v ih =>
    cases w with
    | nil =>
      simp [MongoDBStorage.dot_product, MongoDBStorage.sum_squares]
    | cons b w =>
      have h := ih w
      have hs1 := sum_squares_nonneg v
      have hs2 := sum_squares_nonneg w
      simp only [MongoDBStorage.dot_product, MongoDBStorage.sum_squares,
        List.zipWith_cons_cons, List.map_cons, List.sum_cons] at h hs1 hs2 ⊢
      set d := (List.zipWith (fun x y => x * y) v w).sum with hd
      set s1 := (v.map fun a => a * a).sum with hsd1
      set s2 := (w.map fun a => a * a).sum with hsd2
      rcases eq_or_lt_of_le hs1 with he | hpos
      · have hd2 : d ^ 2 ≤ 0 := by
          rw [← he] at h
          simpa using h
        have h20 : d ^ 2 = 0 := le_antisymm hd2 (sq_nonneg d)
        have hdz : d = 0 := sq_eq_zero_iff.mp h20
        rw [hdz, ← he]
        nlinarith [mul_nonneg (mul_self_nonneg a) hs2]
      · nlinarith [sq_nonneg (b * s1 - a * d),
          mul_nonneg (mul_self_nonneg a) (sub_nonneg.mpr h),
          mul_nonneg (le_of_lt hpos) (sub_nonneg.mpr h), hpos, hs2]

/-- C10.  `_cosine_similarity` is total and guarded: it returns `0` on a
length mismatch; it returns `0` when either magnitude is zero (i.e. when a
sum of squares is zero); otherwise the division branch runs with a
non-zero denominator (so the division-by-zero case is unreachable), and
the value `dot / (|v1| * |v2|)` lies in `[-1, 1]`. -/
theorem cosine_similarity_guarded (v w : List ℚ) :
    (v.length ≠ w.length → MongoDBStorage._cosine_similarity v w = 0) ∧
    (v.length = w.length →
      ((MongoDBStorage.sum_squares v = 0 ∨ MongoDBStorage.sum_squares w = 0) →
        MongoDBStorage._cosine_similarity v w = 0) ∧
      (MongoDBStorage.sum_squares v ≠ 0 → MongoDBStorage.sum_squares w ≠ 0 →
        Real.sqrt ((MongoDBStorage.sum_squares v : ℚ) : ℝ)
            * Real.sqrt ((MongoDBStorage.sum_squares w : ℚ) : ℝ) ≠ 0 ∧
        MongoDBStorage._cosine_similarity v w
          = ((MongoDBStorage.dot_product v w : ℚ) : ℝ)
            / (Real.sqrt ((MongoDBStorage.sum_squares v : ℚ) : ℝ)
              * Real.sqrt ((MongoDBStorage.sum_squares w : ℚ) : ℝ)) ∧
        -1 ≤ MongoDBStorage._cosine_similarity v w ∧
        MongoDBStorage._cosine_similarity v w ≤ 1)) := by
  constructor
  · intro hne
    unfold MongoDBStorage._cosine_similarity
    rw [if_pos hne]
  · intro hlen
    have hlenne : ¬ v.length ≠ w.length := by simpa using hlen
    constructor
    · intro h0
      unfold MongoDBStorage._cosine_similarity
      rw [if_neg hlenne]
      dsimp only
      rw [if_pos]
      rcases h0 with h0 | h0
      · exact Or.inl (by rw [h0]; simp)
      · exact Or.inr (by rw [h0]; simp)
    · intro h1 h2
      have hv : (0 : ℝ) < ((MongoDBStorage.sum_squares v : ℚ) : ℝ) := by
        have hple : 0 < MongoDBStorage.sum_squares v :=
          lt_of_le_of_ne (sum_squares_nonneg v) (Ne.symm h1)
        exact_mod_cast hple
      have hw : (0 : ℝ) < ((MongoDBStorage.sum_squares w : ℚ) : ℝ) := by
        have hple : 0 < MongoDBStorage.sum_squares w :=
          lt_of_le_of_ne (sum_squares_nonneg w) (Ne.symm h2)
        exact_mod_cast hple
      have hm1 : 0 < Real.sqrt ((MongoDBStorage.sum_squares v : ℚ) : ℝ) :=
        Real.sqrt_pos.mpr hv
      have hm2 : 0 < Real.sqrt ((MongoDBStorage.sum_squares w : ℚ) : ℝ) :=
        Real.sqrt_pos.mpr hw
      have hprod : 0 < Real.sqrt ((MongoDBStorage.sum_squares v : ℚ) : ℝ)
          * Real.sqrt ((MongoDBStorage.sum_squares w : ℚ) : ℝ) :=
        mul_pos hm1 hm2
      have hval : MongoDBStorage._cosine_similarity v w
          = ((MongoDBStorage.dot_product v w : ℚ) : ℝ)
            / (Real.sqrt ((MongoDBStorage.sum_squares v : ℚ) : ℝ)
              * Real.sqrt ((MongoDBStorage.sum_squares w : ℚ) : ℝ)) := by
        unfold MongoDBStorage._cosine_similarity
        rw [if_neg hlenne]
        dsimp only
        rw [if_neg]
        push_neg
        exact ⟨ne_of_gt hm1, ne_of_gt hm2⟩
      have hcast : ((MongoDBStorage.dot_product v w : ℚ) : ℝ) ^ 2
          ≤ ((MongoDBStorage.sum_squares v : ℚ) : ℝ)
            * ((MongoDBStorage.sum_squares w : ℚ) : ℝ) := by
        have := cauchy_schwarz_list v w
        exact_mod_cast this
      have habs : |((MongoDBStorage.dot_product v w : ℚ) : ℝ)|
          ≤ Real.sqrt ((MongoDBStorage.sum_squares v : ℚ) : ℝ)
            * Real.sqrt ((MongoDBStorage.sum_squares w : ℚ) : ℝ) := by
        have h3 := Real.sqrt_le_sqrt hcast
        rw [Real.sqrt_sq_eq_abs, Real.sqrt_mul hv.le] at h3
        exact h3
      have hbound : |MongoDBStorage._cosine_similarity v w| ≤ 1 := by
        rw [hval, abs_div, abs_of_pos hprod]
        exact (div_le_one hprod).mpr habs
      have hboth := abs_le.mp hbound
      exact ⟨ne_of_gt hprod, hval, hboth.1, hboth.2⟩

/-- Witness for C10: a length mismatch, a zero-magnitude pair, and the
regular case on unit vectors. -/
theorem cosine_similarity_guarded_witness :
    ([(1 : ℚ)].length ≠ [(1 : ℚ), 0].length ∧
      MongoDBStorage._cosine_similarity [(1 : ℚ)] [(1 : ℚ), 0] = 0) ∧
    (MongoDBStorage.sum_squares [(0 : ℚ)] = 0 ∧
      MongoDBStorage._cosine_similarity [(0 : ℚ)] [(0 : ℚ)] = 0) ∧
    (MongoDBStorage.sum_squares [(1 : ℚ)] ≠ 0 ∧
      (Real.sqrt ((MongoDBStorage.sum_squares [(1 : ℚ)] : ℚ) : ℝ)
          * Real.sqrt ((MongoDBStorage.sum_squares [(1 : ℚ)] : ℚ) : ℝ) ≠ 0 ∧
        MongoDBStorage._cosine_similarity [(1 : ℚ)] [(1 : ℚ)]
          = ((MongoDBStorage.dot_product [(1 : ℚ)] [(1 : ℚ)] : ℚ) : ℝ)
            / (Real.sqrt ((MongoDBStorage.sum_squares [(1 : ℚ)] : ℚ) : ℝ)
              * Real.sqrt ((MongoDBStorage.sum_squares [(1 : ℚ)] : ℚ) : ℝ)) ∧
        -1 ≤ MongoDBStorage._cosine_similarity [(1 : ℚ)] [(1 : ℚ)] ∧
        MongoDBStorage._cosine_similarity [(1 : ℚ)] [(1 : ℚ)] ≤ 1)) :=
  ⟨⟨by decide, (cosine_similarity_guarded [(1 : ℚ)] [(1 : ℚ), 0]).1
      (by decide)⟩,
   ⟨by norm_num [MongoDBStorage.sum_squares],
    ((cosine_similarity_guarded [(0 : ℚ)] [(0 : ℚ)]).2 rfl).1
      (Or.inl (by norm_num [MongoDBStorage.sum_squares]))⟩,
   ⟨by norm_num [MongoDBStorage.sum_squares],
    ((cosine_similarity_guarded [(1 : ℚ)] [(1 : ℚ)]).2 rfl).2
      (by norm_num [MongoDBStorage.sum_squares])
      (by norm_num [MongoDBStorage.sum_squares])⟩⟩
